import Mathlib

/-!
Verification of the hybrid-clocks repository: a Hybrid Logical Clock (HLC)
pairing a physical time value with a logical counter.

The concrete wall-clock representation (`WallMST`) and its byte encoding are
embedded from `src/source/wall_ms.rs`.  The generic clock engine
(`Clock::now` / `Clock::observe`, the `Timestamp` type and its ordering) lives
in the crate root, which is not among the provided sources; those definitions
are modelled from the specification (sections 3, 4.5 and 7 of spec.md) and are
marked as such in their doc comments.
-/

/-- Generic timestamp: a physical time value paired with a logical counter.
Modelled from the spec: `Timestamp<T>` is `{ time: T, count: u16 }`, declared
in the crate root which is not among the provided sources.  The counter is a
`Nat` here; u16 range constraints appear as explicit hypotheses or checks. -/
structure Timestamp (T : Type) where
  time : T
  count : Nat
deriving DecidableEq, Repr

/-- Strict lexicographic order on `Timestamp Nat`: primarily by `time`, with
`count` breaking ties.  Modelled from the spec: the ordering of `Timestamp`
(spec section 3) as derived for the field order `(time, count)`. -/
def tsLt (a b : Timestamp Nat) : Prop :=
  a.time < b.time ∨ (a.time = b.time ∧ a.count < b.count)

/-- Non-strict lexicographic order on `Timestamp Nat`. -/
def tsLe (a b : Timestamp Nat) : Prop :=
  a.time < b.time ∨ (a.time = b.time ∧ a.count ≤ b.count)

instance (a b : Timestamp Nat) : Decidable (tsLt a b) := by
  unfold tsLt; infer_instance

instance (a b : Timestamp Nat) : Decidable (tsLe a b) := by
  unfold tsLe; infer_instance

/-- Error kinds of the clock engine.  Modelled from the spec: section 7's
`OffsetTooGreat` (drift bound exceeded on `observe`) and `ClockOverflow`
(counter range exceeded on `now`). -/
inductive HlcError where
  | offsetTooGreat
  | clockOverflow
deriving DecidableEq, Repr

/-- Clock state.  Modelled from the spec: `Clock<C>` holds the last issued
timestamp and an optional drift bound (`max_diff`).  The physical source is
externalised: each operation takes the source reading `pt` as an argument,
which covers `ManualClock` (the reading is the settable held value). -/
structure HLC where
  last : Timestamp Nat
  maxDiff : Option Nat
deriving DecidableEq, Repr

/-- Largest value of the u16 logical counter. -/
def U16MAX : Nat := 65535

/-- Modelled from the spec: `Clock::now` (spec section 4.5), with `pt` the
successful source reading.  `new_time = max(last.time, pt)`;
`new_count = last.count + 1` if `new_time == last.time` else `0`; if the
increment would overflow u16 the call fails with `clockOverflow` and the
state is unchanged; otherwise `last` is set to the new timestamp, which is
also returned. -/
def hlcNow (c : HLC) (pt : Nat) : HLC × Except HlcError (Timestamp Nat) :=
  let newTime := max c.last.time pt
  if newTime = c.last.time then
    if c.last.count + 1 > U16MAX then
      (c, Except.error HlcError.clockOverflow)
    else
      let t : Timestamp Nat := ⟨newTime, c.last.count + 1⟩
      (⟨t, c.maxDiff⟩, Except.ok t)
  else
    let t : Timestamp Nat := ⟨newTime, 0⟩
    (⟨t, c.maxDiff⟩, Except.ok t)

/-- Modelled from the spec: the merge step of `Clock::observe` (spec section
4.5 step 3): `merged_time = max(last.time, remote.time)`; on a time tie the
counts are maxed, when `last.time` alone is the maximum the local count is
kept, and when `remote.time` alone is the maximum the remote count is adopted
as-is. -/
def hlcMerge (last remote : Timestamp Nat) : Timestamp Nat :=
  let mt := max last.time remote.time
  if mt = last.time then
    if mt = remote.time then ⟨mt, max last.count remote.count⟩
    else ⟨mt, last.count⟩
  else ⟨mt, remote.count⟩

/-- Modelled from the spec: `Clock::observe` (spec section 4.5), with `pt`
the successful source reading used for drift validation only.  The excess of
`remote.time` over `pt` saturates at zero (`Nat` subtraction); if a bound is
configured and the excess exceeds it the call fails with `offsetTooGreat`
leaving the state unchanged; otherwise `last` becomes the merge of `last` and
`remote`. -/
def hlcObserve (c : HLC) (remote : Timestamp Nat) (pt : Nat) :
    HLC × Except HlcError Unit :=
  let excess := remote.time - pt
  match c.maxDiff with
  | some d =>
    if excess > d then (c, Except.error HlcError.offsetTooGreat)
    else (⟨hlcMerge c.last remote, c.maxDiff⟩, Except.ok ())
  | none => (⟨hlcMerge c.last remote, c.maxDiff⟩, Except.ok ())

/-- An event in a clock history: a `now` call or an `observe` call, each with
the physical source reading at the time of the call. -/
inductive HlcEv where
  | enow (pt : Nat)
  | eobs (remote : Timestamp Nat) (pt : Nat)
deriving DecidableEq, Repr

/-- State after one event (failed calls leave the state unchanged, which is
part of the definitions of `hlcNow` and `hlcObserve`). -/
def hlcStep (c : HLC) : HlcEv → HLC
  | HlcEv.enow pt => (hlcNow c pt).1
  | HlcEv.eobs r pt => (hlcObserve c r pt).1

/-- State after a list of events. -/
def hlcRun (c : HLC) : List HlcEv → HLC
  | [] => c
  | e :: es => hlcRun (hlcStep c e) es

/-- The timestamps returned by successful `now` calls together with the
remote timestamps accepted by successful `observe` calls, over a history. -/
def hlcIssued : HLC → List HlcEv → List (Timestamp Nat)
  | _, [] => []
  | c, HlcEv.enow pt :: es =>
    match hlcNow c pt with
    | (c', Except.ok t) => t :: hlcIssued c' es
    | (_, Except.error _) => hlcIssued c es
  | c, HlcEv.eobs r pt :: es =>
    match hlcObserve c r pt with
    | (c', Except.ok _) => r :: hlcIssued c' es
    | (_, Except.error _) => hlcIssued c es

lemma tsLe_refl (a : Timestamp Nat) : tsLe a a := by
  unfold tsLe; omega

lemma tsLe_trans {a b c : Timestamp Nat} (h1 : tsLe a b) (h2 : tsLe b c) :
    tsLe a c := by
  unfold tsLe at *; omega

lemma tsLe_lt_trans {a b c : Timestamp Nat} (h1 : tsLe a b) (h2 : tsLt b c) :
    tsLt a c := by
  unfold tsLe at h1; unfold tsLt at *; omega

lemma hlcNow_ok {c c' : HLC} {pt : Nat} {t : Timestamp Nat}
    (h : hlcNow c pt = (c', Except.ok t)) :
    tsLt c.last t ∧ c'.last = t := by
  simp only [hlcNow] at h
  split at h
  · split at h
    · exact absurd h (by simp)
    · injection h with hc ht
      injection ht with ht
      subst hc; subst ht
      rename_i hmax _
      refine ⟨?_, rfl⟩
      unfold tsLt
      dsimp only
      omega
  · injection h with hc ht
    injection ht with ht
    subst hc; subst ht
    rename_i hmax
    refine ⟨?_, rfl⟩
    unfold tsLt
    dsimp only
    omega

lemma hlcNow_err {c c' : HLC} {pt : Nat} {e : HlcError}
    (h : hlcNow c pt = (c', Except.error e)) : c' = c := by
  simp only [hlcNow] at h
  split at h
  · split at h
    · injection h with hc _
      exact hc.symm
    · exact absurd h (by simp)
  · exact absurd h (by simp)

lemma hlcNow_fst_le (c : HLC) (pt : Nat) : tsLe c.last ((hlcNow c pt).1).last := by
  rcases h : hlcNow c pt with ⟨c', r⟩
  cases r with
  | ok t =>
    have h2 := hlcNow_ok h
    simp only [h2.2]
    rcases h2.1 with h3 | h3
    · exact Or.inl h3
    · exact Or.inr ⟨h3.1, Nat.le_of_lt h3.2⟩
  | error e =>
    rw [hlcNow_err h]
    exact tsLe_refl _

lemma hlcMerge_ge_last (last r : Timestamp Nat) : tsLe last (hlcMerge last r) := by
  unfold tsLe
  simp only [hlcMerge]
  split
  · split
    · dsimp only; omega
    · dsimp only; omega
  · rename_i hmax
    dsimp only
    omega

lemma hlcMerge_ge_remote (last r : Timestamp Nat) : tsLe r (hlcMerge last r) := by
  unfold tsLe
  simp only [hlcMerge]
  split
  · split
    · rename_i h1 h2
      dsimp only; omega
    · rename_i h1 h2
      dsimp only; omega
  · rename_i h1
    dsimp only
    omega

lemma hlcObserve_ok {c c' : HLC} {r : Timestamp Nat} {pt : Nat}
    (h : hlcObserve c r pt = (c', Except.ok ())) :
    c'.last = hlcMerge c.last r := by
  simp only [hlcObserve] at h
  split at h
  · split at h
    · exact absurd h (by simp)
    · injection h with hc _
      rw [← hc]
  · injection h with hc _
    rw [← hc]

lemma hlcObserve_err {c c' : HLC} {r : Timestamp Nat} {pt : Nat} {e : HlcError}
    (h : hlcObserve c r pt = (c', Except.error e)) : c' = c := by
  simp only [hlcObserve] at h
  split at h
  · split at h
    · injection h with hc _
      exact hc.symm
    · exact absurd h (by simp)
  · exact absurd h (by simp)

lemma hlcObserve_fst_le (c : HLC) (r : Timestamp Nat) (pt : Nat) :
    tsLe c.last ((hlcObserve c r pt).1).last := by
  rcases h : hlcObserve c r pt with ⟨c', u⟩
  cases u with
  | ok v =>
    cases v
    rw [hlcObserve_ok h]
    exact hlcMerge_ge_last _ _
  | error e =>
    rw [hlcObserve_err h]
    exact tsLe_refl _

lemma hlcStep_le (c : HLC) (e : HlcEv) : tsLe c.last (hlcStep c e).last := by
  cases e with
  | enow pt => exact hlcNow_fst_le c pt
  | eobs r pt => exact hlcObserve_fst_le c r pt

lemma hlcRun_le (c : HLC) (es : List HlcEv) : tsLe c.last (hlcRun c es).last := by
  induction es generalizing c with
  | nil => exact tsLe_refl _
  | cons e es ih =>
    exact tsLe_trans (hlcStep_le c e) (ih (hlcStep c e))

lemma hlcIssued_le (es : List HlcEv) (c : HLC) (v : Timestamp Nat)
    (hv : v ∈ hlcIssued c es) : tsLe v (hlcRun c es).last := by
  induction es generalizing c with
  | nil => simp [hlcIssued] at hv
  | cons e es ih =>
    cases e with
    | enow pt =>
      rcases hn : hlcNow c pt with ⟨c', r⟩
      have hstep : hlcStep c (HlcEv.enow pt) = c' := by
        simp only [hlcStep]
        rw [hn]
      cases r with
      | ok t =>
        rw [hlcIssued, hn] at hv
        dsimp only at hv
        rw [hlcRun, hstep]
        rcases List.mem_cons.1 hv with hvt | hvm
        · subst hvt
          have h2 := (hlcNow_ok hn).2
          rw [← h2]
          exact hlcRun_le c' es
        · exact ih c' hvm
      | error e =>
        rw [hlcIssued, hn] at hv
        dsimp only at hv
        rw [hlcRun, hstep, hlcNow_err hn]
        exact ih c hv
    | eobs rm pt =>
      rcases hn : hlcObserve c rm pt with ⟨c', r⟩
      have hstep : hlcStep c (HlcEv.eobs rm pt) = c' := by
        simp only [hlcStep]
        rw [hn]
      cases r with
      | ok u =>
        cases u
        rw [hlcIssued, hn] at hv
        dsimp only at hv
        rw [hlcRun, hstep]
        rcases List.mem_cons.1 hv with hvt | hvm
        · subst hvt
          refine tsLe_trans ?_ (hlcRun_le c' es)
          rw [hlcObserve_ok hn]
          exact hlcMerge_ge_remote c.last v
        · exact ih c' hvm
      | error e =>
        rw [hlcIssued, hn] at hv
        dsimp only at hv
        rw [hlcRun, hstep, hlcObserve_err hn]
        exact ih c hv

lemma hlcObserve_some_pos {last : Timestamp Nat} {d : Nat} {r : Timestamp Nat}
    {pt : Nat} (h1 : r.time - pt > d) :
    hlcObserve ⟨last, some d⟩ r pt =
      (⟨last, some d⟩, Except.error HlcError.offsetTooGreat) := by
  simp [hlcObserve, h1]

lemma hlcObserve_some_neg {last : Timestamp Nat} {d : Nat} {r : Timestamp Nat}
    {pt : Nat} (h1 : ¬r.time - pt > d) :
    hlcObserve ⟨last, some d⟩ r pt =
      (⟨hlcMerge last r, some d⟩, Except.ok ()) := by
  simp [hlcObserve, h1]

lemma hlcObserve_none {last : Timestamp Nat} {r : Timestamp Nat} {pt : Nat} :
    hlcObserve ⟨last, none⟩ r pt = (⟨hlcMerge last r, none⟩, Except.ok ()) := by
  simp [hlcObserve]

/-- Claim C1: over any history of `now`/`observe` calls on one clock, a
timestamp returned by a later successful `now` is strictly greater, in the
lexicographic (time, count) order, than every timestamp previously returned
by `now` and every remote timestamp previously accepted by `observe`. -/
theorem hlc_now_gt_all_issued (c0 : HLC) (es : List HlcEv) (pt : Nat)
    (v : Timestamp Nat) (c2 : HLC) (t : Timestamp Nat)
    (hv : v ∈ hlcIssued c0 es)
    (hn : hlcNow (hlcRun c0 es) pt = (c2, Except.ok t)) :
    tsLt v t :=
  tsLe_lt_trans (hlcIssued_le es c0 v hv) (hlcNow_ok hn).1

/-- Witness for C1: a clock seeded at time 1 observes the remote timestamp
(10, 0); the next `now` (source still at 1) returns (10, 1), strictly greater
than the observed timestamp. -/
theorem hlc_now_gt_all_issued_witness : tsLt ⟨10, 0⟩ ⟨10, 1⟩ :=
  hlc_now_gt_all_issued ⟨⟨1, 0⟩, none⟩ [HlcEv.eobs ⟨10, 0⟩ 1] 1 ⟨10, 0⟩
    ⟨⟨10, 1⟩, none⟩ ⟨10, 1⟩ (by decide) rfl

/-- Claim C2: a successful `now` with source reading `pt` sets and returns
the timestamp with time `max(last.time, pt)` and count `last.count + 1` when
the maximum is `last.time`, else `0`. -/
theorem hlc_now_spec (c c' : HLC) (pt : Nat) (t : Timestamp Nat)
    (h : hlcNow c pt = (c', Except.ok t)) :
    t.time = max c.last.time pt ∧
    t.count = (if max c.last.time pt = c.last.time then c.last.count + 1 else 0) ∧
    c'.last = t := by
  simp only [hlcNow] at h
  split at h
  · split at h
    · exact absurd h (by simp)
    · injection h with hc ht
      injection ht with ht
      subst hc; subst ht
      rename_i hmax _
      exact ⟨rfl, by rw [if_pos hmax], rfl⟩
  · injection h with hc ht
    injection ht with ht
    subst hc; subst ht
    rename_i hmax
    exact ⟨rfl, by rw [if_neg hmax], rfl⟩

/-- Witness for C2: clock with last (10, 0), source reading 9 (behind): `now`
keeps time 10 and increments the counter, updating `last` to (10, 1). -/
theorem hlc_now_spec_witness : (HLC.mk ⟨10, 1⟩ none).last = (⟨10, 1⟩ : Timestamp Nat) :=
  (hlc_now_spec ⟨⟨10, 0⟩, none⟩ ⟨⟨10, 1⟩, none⟩ 9 ⟨10, 1⟩ rfl).2.2

/-- Claim C3: a successful `observe` of remote `r` sets `last.time` to
`max(last.time, r.time)` and sets `last.count` to the max of both counts on a
time tie, to the local count when the local time alone is the maximum, and to
the remote count adopted as-is when the remote time alone is the maximum;
`observe` never increments a counter. -/
theorem hlc_observe_spec (c c' : HLC) (r : Timestamp Nat) (pt : Nat)
    (h : hlcObserve c r pt = (c', Except.ok ())) :
    c'.last.time = max c.last.time r.time ∧
    c'.last.count =
      (if c.last.time = r.time then max c.last.count r.count
       else if r.time < c.last.time then c.last.count else r.count) := by
  rw [hlcObserve_ok h]
  simp only [hlcMerge]
  split
  · split
    · rename_i h1 h2
      refine ⟨rfl, ?_⟩
      dsimp only
      rw [if_pos (show c.last.time = r.time by omega)]
    · rename_i h1 h2
      refine ⟨rfl, ?_⟩
      dsimp only
      rw [if_neg (show ¬c.last.time = r.time by omega),
        if_pos (show r.time < c.last.time by omega)]
  · rename_i h1
    refine ⟨rfl, ?_⟩
    dsimp only
    rw [if_neg (show ¬c.last.time = r.time by omega),
      if_neg (show ¬r.time < c.last.time by omega)]

/-- Witness for C3: clock with last (0, 0) observes the remote (0, 5): a time
tie, so the merged count is `max 0 5` and the merged time is `max 0 0`. -/
theorem hlc_observe_spec_witness :
    (HLC.mk ⟨0, 5⟩ none).last.time = max 0 0 ∧
    (HLC.mk ⟨0, 5⟩ none).last.count =
      (if (0 : Nat) = 0 then max 0 5 else if (0 : Nat) < 0 then 0 else 5) :=
  hlc_observe_spec ⟨⟨0, 0⟩, none⟩ ⟨⟨0, 5⟩, none⟩ ⟨0, 5⟩ 0 rfl

/-- Claim C4: `observe` computes the excess of the remote time over the
source reading saturating at zero, never rejects a remote whose time is at
most the reading, fails with `offsetTooGreat` exactly when a bound is
configured and the excess exceeds it, and on failure leaves the clock state
unmodified. -/
theorem hlc_observe_drift (c : HLC) (r : Timestamp Nat) (pt : Nat) :
    (r.time ≤ pt → (hlcObserve c r pt).2 = Except.ok ()) ∧
    ((hlcObserve c r pt).2 = Except.error HlcError.offsetTooGreat ↔
      ∃ d, c.maxDiff = some d ∧ d < r.time - pt) ∧
    (∀ e, (hlcObserve c r pt).2 = Except.error e → (hlcObserve c r pt).1 = c) := by
  rcases c with ⟨last, md⟩
  cases md with
  | none =>
    rw [hlcObserve_none]
    refine ⟨fun _ => rfl, ?_, ?_⟩
    · simp
    · intro e he
      exact absurd he (by simp)
  | some d =>
    by_cases h1 : r.time - pt > d
    · rw [hlcObserve_some_pos h1]
      refine ⟨fun hle => absurd h1 (by omega), ?_, fun e _ => rfl⟩
      simp only [true_iff]
      exact ⟨d, rfl, h1⟩
    · rw [hlcObserve_some_neg h1]
      refine ⟨fun _ => rfl, ?_, ?_⟩
      · simp only [Option.some.injEq]
        constructor
        · intro he
          exact absurd he (by simp)
        · rintro ⟨d', hd', hlt⟩
          exact absurd hlt (by omega)
      · intro e he
        exact absurd he (by simp)

/-- Witness for C4: clock at source reading 10 with drift bound 2 accepts the
past remote timestamp (9, 0) — a remote time at or before the reading is
never rejected. -/
theorem hlc_observe_drift_witness :
    (hlcObserve ⟨⟨10, 0⟩, some 2⟩ ⟨9, 0⟩ 10).2 = Except.ok () :=
  (hlc_observe_drift ⟨⟨10, 0⟩, some 2⟩ ⟨9, 0⟩ 10).1 (by decide)

/-- Claim C5: when the new time equals `last.time` and the counter already
holds the largest u16 value, `now` fails with `clockOverflow` and the state
is unchanged — the counter is not wrapped to 0. -/
theorem hlc_now_overflow (c : HLC) (pt : Nat)
    (h1 : max c.last.time pt = c.last.time) (h2 : c.last.count = U16MAX) :
    hlcNow c pt = (c, Except.error HlcError.clockOverflow) := by
  simp [hlcNow, h1, h2, U16MAX]

/-- Witness for C5: a clock whose last timestamp is (5, 65535), with the
source behind at 3, fails with `clockOverflow` and keeps its state. -/
theorem hlc_now_overflow_witness :
    hlcNow ⟨⟨5, 65535⟩, none⟩ 3 =
      (⟨⟨5, 65535⟩, none⟩, Except.error HlcError.clockOverflow) :=
  hlc_now_overflow ⟨⟨5, 65535⟩, none⟩ 3 (by decide) (by decide)

/-- Wall-clock fixed-point time from `src/source/wall_ms.rs`: `WallMST(u32, u16)`
holds seconds since the 2020 epoch and 1/65536-second ticks.  Fields are `Nat`
with the u32/u16 ranges as hypotheses where the claims need them. -/
structure WallMST where
  secs : Nat
  frac : Nat
deriving DecidableEq, Repr

/-- Modelled from the spec: the crate-level `NANOS_PER_SEC` constant,
referenced by `wall_ms.rs` but declared in `src/source/mod.rs` which is not
among the provided sources; nanoseconds per second. -/
def NANOS_PER_SEC : Nat := 1000000000

/-- `WallMST::TICKS_PER_SEC` from the source: ticks per second. -/
def TICKS_PER_SEC : Nat := 65536

/-- `WallMST::EPOCH_2020` from the source: Unix seconds of 2020-02-20T00:00:00Z. -/
def EPOCH_2020 : Nat := 1582156800

/-- `NANOS_PER_SEC / TICKS_PER_SEC` as computed in the source (integer
division, so 15258). -/
def nanosPerTick : Nat := NANOS_PER_SEC / TICKS_PER_SEC

lemma nanosPerTick_eq : nanosPerTick = 15258 := rfl

/-- Strict order on `WallMST`: the derived lexicographic order on the field
pair `(u32, u16)` in the source. -/
def wallLt (a b : WallMST) : Prop :=
  a.secs < b.secs ∨ (a.secs = b.secs ∧ a.frac < b.frac)

/-- Strict order on `Timestamp WallMST`.  Modelled from the spec: `Timestamp`
ordering is primarily by `time` with `count` breaking ties (spec section 3);
the `time` component uses the source's derived `WallMST` order. -/
def tsLtW (a b : Timestamp WallMST) : Prop :=
  wallLt a.time b.time ∨ (a.time = b.time ∧ a.count < b.count)

/-- A fixed block of 8 bytes, the result type of `Timestamp::<WallMST>::to_bytes`. -/
structure Bytes8 where
  b0 : Nat
  b1 : Nat
  b2 : Nat
  b3 : Nat
  b4 : Nat
  b5 : Nat
  b6 : Nat
  b7 : Nat
deriving DecidableEq, Repr

/-- `Timestamp::<WallMST>::to_bytes` from the source: big-endian
`[seconds:4][fraction:2][counter:2]`. -/
def to_bytes (ts : Timestamp WallMST) : Bytes8 :=
  ⟨ts.time.secs / 16777216 % 256, ts.time.secs / 65536 % 256,
   ts.time.secs / 256 % 256, ts.time.secs % 256,
   ts.time.frac / 256 % 256, ts.time.frac % 256,
   ts.count / 256 % 256, ts.count % 256⟩

/-- `Timestamp::<WallMST>::from_bytes` from the source: decode the big-endian
fields. -/
def from_bytes (b : Bytes8) : Timestamp WallMST :=
  ⟨⟨b.b0 * 16777216 + b.b1 * 65536 + b.b2 * 256 + b.b3, b.b4 * 256 + b.b5⟩,
   b.b6 * 256 + b.b7⟩

/-- Lexicographic order on 8-byte blocks, most significant byte first: the
order Rust uses to compare two `[u8; 8]` values. -/
def bytesLt (x y : Bytes8) : Prop :=
  x.b0 < y.b0 ∨ (x.b0 = y.b0 ∧
  (x.b1 < y.b1 ∨ (x.b1 = y.b1 ∧
  (x.b2 < y.b2 ∨ (x.b2 = y.b2 ∧
  (x.b3 < y.b3 ∨ (x.b3 = y.b3 ∧
  (x.b4 < y.b4 ∨ (x.b4 = y.b4 ∧
  (x.b5 < y.b5 ∨ (x.b5 = y.b5 ∧
  (x.b6 < y.b6 ∨ (x.b6 = y.b6 ∧
   x.b7 < y.b7)))))))))))))

instance (a b : Timestamp WallMST) : Decidable (tsLtW a b) := by
  unfold tsLtW wallLt; infer_instance

instance (x y : Bytes8) : Decidable (bytesLt x y) := by
  unfold bytesLt; infer_instance

/-- Claim C6: decoding the 8-byte big-endian encoding of a representable
`Timestamp WallMST` reproduces it exactly. -/
theorem from_bytes_to_bytes (ts : Timestamp WallMST)
    (hs : ts.time.secs < 4294967296) (hf : ts.time.frac < 65536)
    (hc : ts.count < 65536) :
    from_bytes (to_bytes ts) = ts := by
  rcases ts with ⟨⟨s, f⟩, c⟩
  simp only [to_bytes, from_bytes, Timestamp.mk.injEq, WallMST.mk.injEq] at *
  refine ⟨⟨?_, ?_⟩, ?_⟩ <;> omega

/-- Witness for C6: the round trip at the concrete timestamp
((300000, 513), 7). -/
theorem from_bytes_to_bytes_witness :
    from_bytes (to_bytes ⟨⟨300000, 513⟩, 7⟩) = ⟨⟨300000, 513⟩, 7⟩ :=
  from_bytes_to_bytes ⟨⟨300000, 513⟩, 7⟩ (by decide) (by decide) (by decide)

lemma byte_decomp (x : Nat) (h : x < 4294967296) :
    x = x / 16777216 % 256 * 16777216 + x / 65536 % 256 * 65536 +
      x / 256 % 256 * 256 + x % 256 := by
  have h1 : x / 256 / 256 = x / 65536 := by
    rw [Nat.div_div_eq_div_mul]
  have h2 : x / 65536 / 256 = x / 16777216 := by
    rw [Nat.div_div_eq_div_mul]
  omega

/-- Claim C7: for representable `Timestamp WallMST` values, comparison under
the timestamp order (time first, then count) agrees with lexicographic
comparison of the 8-byte encodings: the strict orders coincide and the
encodings are equal exactly when the timestamps are. -/
theorem to_bytes_order_preserving (a b : Timestamp WallMST)
    (hsa : a.time.secs < 4294967296) (hfa : a.time.frac < 65536)
    (hca : a.count < 65536)
    (hsb : b.time.secs < 4294967296) (hfb : b.time.frac < 65536)
    (hcb : b.count < 65536) :
    (tsLtW a b ↔ bytesLt (to_bytes a) (to_bytes b)) ∧
    (a = b ↔ to_bytes a = to_bytes b) := by
  rcases a with ⟨⟨s1, f1⟩, c1⟩
  rcases b with ⟨⟨s2, f2⟩, c2⟩
  simp only [] at hsa hfa hca hsb hfb hcb
  have d1 := byte_decomp s1 hsa
  have d2 := byte_decomp s2 hsb
  simp only [tsLtW, wallLt, bytesLt, to_bytes, Timestamp.mk.injEq,
    WallMST.mk.injEq, Bytes8.mk.injEq]
  omega

/-- Witness for C7: order agreement at the concrete pair ((1, 0), 5) and
((1, 1), 0), which differ only in the fraction and counter. -/
theorem to_bytes_order_preserving_witness :
    (tsLtW ⟨⟨1, 0⟩, 5⟩ ⟨⟨1, 1⟩, 0⟩ ↔
      bytesLt (to_bytes ⟨⟨1, 0⟩, 5⟩) (to_bytes ⟨⟨1, 1⟩, 0⟩)) ∧
    ((⟨⟨1, 0⟩, 5⟩ : Timestamp WallMST) = ⟨⟨1, 1⟩, 0⟩ ↔
      to_bytes ⟨⟨1, 0⟩, 5⟩ = to_bytes ⟨⟨1, 1⟩, 0⟩) :=
  to_bytes_order_preserving ⟨⟨1, 0⟩, 5⟩ ⟨⟨1, 1⟩, 0⟩ (by decide) (by decide)
    (by decide) (by decide) (by decide) (by decide)

/-- `WallMST::of_u64` from the source: build a `WallMST` from ticks since the
Unix epoch.  `(val >> 16).checked_sub(EPOCH_2020).unwrap_or(0)` is `Nat`
truncated subtraction (saturating at zero), and the `as u32` cast is
reduction modulo 2^32. -/
def of_u64 (val : Nat) : WallMST :=
  ⟨(val / 65536 - EPOCH_2020) % 4294967296, val % 65536⟩

lemma of_u64_secs (v : Nat) :
    (of_u64 v).secs = (v / 65536 - EPOCH_2020) % 4294967296 := rfl

lemma of_u64_frac (v : Nat) : (of_u64 v).frac = v % 65536 := rfl

/-- `WallMST::from_since_epoch` from the source, taking the `Duration` as
the pair (whole seconds, sub-second nanoseconds): scale to ticks and build
via `of_u64`. -/
def from_since_epoch (secs nanos : Nat) : WallMST :=
  of_u64 (secs * TICKS_PER_SEC + nanos / nanosPerTick)

/-- `WallMST::from_timespec` from the source, with the `SystemTime` given as
nanoseconds since the Unix epoch (negative = before 1970).
`t.duration_since(SystemTime::UNIX_EPOCH)` fails exactly when the time is
before 1970; on success the duration is split into whole seconds and
sub-second nanoseconds. -/
def from_timespec (t : Int) : Option WallMST :=
  if t < 0 then none
  else some (from_since_epoch (t.toNat / NANOS_PER_SEC) (t.toNat % NANOS_PER_SEC))

/-- `WallMST::duration_since_epoch` from the source, as the pair
(seconds, nanoseconds) since the Unix epoch; `none` models the defensive
`assert!(nsecs < 1000_000_000)` (and the u32 conversion) failing. -/
def duration_since_epoch (w : WallMST) : Option (Nat × Nat) :=
  let nsecs := w.frac * nanosPerTick
  if nsecs < 1000000000 then some (w.secs + EPOCH_2020, nsecs) else none

/-- The system-time round trip of C9 in nanoseconds since the Unix epoch:
convert a system time to `WallMST` (`from_timespec` on a non-negative time)
and back (`as_systemtime`, i.e. the Unix epoch plus `duration_since_epoch`). -/
def rt_nanos (t : Nat) : Nat :=
  match duration_since_epoch
      (from_since_epoch (t / NANOS_PER_SEC) (t % NANOS_PER_SEC)) with
  | some (s, n) => s * NANOS_PER_SEC + n
  | none => 0

/-- Amended claim C10: for every `WallMST` with a u16 fraction,
`duration_since_epoch` succeeds: the nanosecond remainder is
`fraction * 15258`, at most `65535 * 15258 = 999933030 < 10^9`, so the
internal assertion and the u32 conversion never fail. -/
theorem duration_since_epoch_total (w : WallMST) (hf : w.frac < 65536) :
    duration_since_epoch w = some (w.secs + EPOCH_2020, w.frac * nanosPerTick) ∧
    w.frac * nanosPerTick ≤ 999933030 := by
  simp only [duration_since_epoch, nanosPerTick_eq]
  rw [if_pos (show w.frac * 15258 < 1000000000 by omega)]
  exact ⟨rfl, by omega⟩

/-- Counterexample for C10 as stated: at the maximal fraction 65535 the
computed nanosecond remainder is `65535 * 15258 = 999933030`, not the
999983430 the claim asserts. -/
theorem duration_since_epoch_max_value :
    duration_since_epoch ⟨0, 65535⟩ = some (EPOCH_2020, 65535 * nanosPerTick) ∧
    65535 * nanosPerTick = 999933030 ∧ (999933030 : Nat) ≠ 999983430 := by
  refine ⟨by decide, by decide, by decide⟩

/-- Witness for the amended C10 at the concrete value (0, 0). -/
theorem duration_since_epoch_total_witness :
    duration_since_epoch ⟨0, 0⟩ = some (0 + EPOCH_2020, 0 * nanosPerTick) ∧
    0 * nanosPerTick ≤ 999933030 :=
  duration_since_epoch_total ⟨0, 0⟩ (by decide)

/-- Counterexample for C8 as stated: the Unix epoch itself (0 nanoseconds,
i.e. 1970-01-01, well before the 2020 epoch) converts successfully to
`WallMST(0, 0)` instead of failing — `of_u64` clamps pre-2020 times to
seconds 0 via `unwrap_or(0)`. -/
theorem from_timespec_pre_epoch_success :
    from_timespec 0 = some ⟨0, 0⟩ ∧
    (0 : Int) < (EPOCH_2020 : Int) * (NANOS_PER_SEC : Int) := by
  refine ⟨rfl, by norm_num [EPOCH_2020, NANOS_PER_SEC]⟩

/-- Amended claim C8: conversion fails exactly for system times before the
Unix epoch (1970); a system time between 1970 and the 2020 epoch converts
successfully to a timestamp clamped to seconds 0. -/
theorem from_timespec_unix_epoch_boundary (t : Int)
    (hlt : t < (EPOCH_2020 : Int) * (NANOS_PER_SEC : Int)) :
    (from_timespec t = none ↔ t < 0) ∧
    (0 ≤ t → ∃ w, from_timespec t = some w ∧ w.secs = 0) := by
  by_cases h0 : t < 0
  · refine ⟨by simp [from_timespec, h0], fun h => absurd h0 (by omega)⟩
  · refine ⟨by simp [from_timespec, h0], fun _ => ?_⟩
    refine ⟨from_since_epoch (t.toNat / NANOS_PER_SEC) (t.toNat % NANOS_PER_SEC),
      by simp [from_timespec, h0], ?_⟩
    have hm : t.toNat < 1582156800 * 1000000000 := by
      simp only [EPOCH_2020, NANOS_PER_SEC] at hlt
      omega
    rw [from_since_epoch, of_u64_secs]
    simp only [nanosPerTick_eq, NANOS_PER_SEC, TICKS_PER_SEC, EPOCH_2020]
    have hf65 : (t.toNat % 1000000000) / 15258 ≤ 65540 := by omega
    omega

/-- Witness for the amended C8: the system time 5 nanoseconds before the Unix
epoch fails to convert. -/
theorem from_timespec_unix_epoch_boundary_witness : from_timespec (-5) = none :=
  (from_timespec_unix_epoch_boundary (-5)
    (by norm_num [EPOCH_2020, NANOS_PER_SEC])).1.mpr (by norm_num)

/-- Counterexample for C9 as stated: the system time 15257 nanoseconds after
the 2020 epoch rounds down to the epoch itself, a difference of 15257 ns,
which exceeds half a tick (1/131072 s, about 7629 ns). -/
theorem wallclock_roundtrip_excess :
    rt_nanos 1582156800000015257 = 1582156800000000000 ∧
    131072 * (1582156800000015257 - rt_nanos 1582156800000015257) >
      NANOS_PER_SEC := by
  refine ⟨rfl, by decide⟩

/-- Amended claim C9: for system times in the representable range, the round
trip through `WallMST` differs from the original by at most 51712 ns (about
52 microseconds): plain truncation loses at most one tick's scaled value
(15257 ns), and when the scaled fraction spills into the next second the
result can exceed the original by up to 51712 ns. -/
theorem wallclock_roundtrip_bound (t : Nat)
    (h1 : EPOCH_2020 * NANOS_PER_SEC ≤ t)
    (h2 : t / NANOS_PER_SEC < EPOCH_2020 + 4294967295) :
    rt_nanos t ≤ t + 51712 ∧ t ≤ rt_nanos t + 15257 := by
  have hf : (from_since_epoch (t / NANOS_PER_SEC) (t % NANOS_PER_SEC)).frac < 65536 := by
    rw [from_since_epoch, of_u64_frac]
    omega
  have hd := (duration_since_epoch_total _ hf).1
  unfold rt_nanos
  rw [hd]
  dsimp only
  rw [from_since_epoch, of_u64_secs, of_u64_frac]
  simp only [nanosPerTick_eq, NANOS_PER_SEC, TICKS_PER_SEC, EPOCH_2020] at *
  have hf65 : (t % 1000000000) / 15258 ≤ 65540 := by omega
  have hmod : ((t / 1000000000 * 65536 + t % 1000000000 / 15258) / 65536 -
      1582156800) % 4294967296
      = (t / 1000000000 * 65536 + t % 1000000000 / 15258) / 65536 - 1582156800 :=
    Nat.mod_eq_of_lt (by omega)
  rw [hmod]
  omega

/-- Witness for the amended C9 at the 2020 epoch itself. -/
theorem wallclock_roundtrip_bound_witness :
    rt_nanos 1582156800000000000 ≤ 1582156800000000000 + 51712 ∧
    1582156800000000000 ≤ rt_nanos 1582156800000000000 + 15257 :=
  wallclock_roundtrip_bound 1582156800000000000 (by decide) (by decide)
